import Mathlib

/-!
A shallow embedding, in Lean 4, of the `pyrtf` repository (files
`table.py` and `pyrtf.py`): the RTF table layout engine
(`Table.column_widths`, header and data-row rendering) and the
markdown-like shorthand translator (`TextRun.md2rtf`).

Python floats are modelled as exact rationals (`ℚ`); Python exceptions
(`ValueError`, `ZeroDivisionError`, `KeyError`, `IndexError`,
`NameError`, `TypeError`) are modelled with `Except String`.
-/

namespace PyRtf

/-- Sequencing a fallible computation over a list, stopping at the first
error: the embedding of a Python `for` loop whose body may raise. -/
def mapE (f : α → Except String β) : List α → Except String (List β)
  | [] => .ok []
  | x :: xs => do
    let y ← f x
    let ys ← mapE f xs
    pure (y :: ys)

/-! ### Python error messages used by the embedding -/

def valueErrWidthShape : String :=
  "ValueError: Column.width must be a percent string, an int, or a float"

def mixedErrMsg : String :=
  "ValueError: All Column.widths must be the same type, either percent or units (twips)"

def zeroDivMsg : String := "ZeroDivisionError: division by zero"

def nameErrMsg : String := "NameError: name col_rtg is not defined"

def keyErrMsg : String := "KeyError"

def idxErrMsg : String := "IndexError: list index out of range"

def typeErrMsg : String := "TypeError"

def floatErrMsg : String := "ValueError: could not convert string to float"

def intErrMsg : String := "ValueError: invalid literal for int with base 10"

def strIdxErrMsg : String := "IndexError: string index out of range"

/-! ### Python numeric-string parsing (`float(...)`, `int(...)`) -/

/-- Value of a decimal digit string, most significant digit first
(accumulator form, as a left fold). -/
def digitsValAux (acc : ℕ) : List Char → ℕ
  | [] => acc
  | c :: cs => digitsValAux (acc * 10 + (c.toNat - 48)) cs

def digitsToNat (l : List Char) : ℕ := digitsValAux 0 l

/-- The fragment of Python `float(s)` exercised by `table.py`:
an unsigned decimal literal `digits`, `digits.digits`, `.digits` or
`digits.`; anything else is a `ValueError` (`none`). -/
def pyFloatChars (l : List Char) : Option ℚ :=
  let ip := l.takeWhile Char.isDigit
  let rest := l.dropWhile Char.isDigit
  match rest with
  | [] => if ip.isEmpty then none else some (digitsToNat ip)
  | '.' :: fp =>
    if fp.all Char.isDigit ∧ (ip ≠ [] ∨ fp ≠ []) then
      some ((digitsToNat ip : ℚ) + (digitsToNat fp : ℚ) / (10 : ℚ) ^ fp.length)
    else none
  | _ => none

/-- The fragment of Python `int(s)` (string argument) exercised by
`table.py`: an unsigned decimal integer literal; a string containing a
decimal point (or anything else) raises `ValueError`. -/
def pyIntStr (s : String) : Except String ℤ :=
  if s.toList ≠ [] ∧ s.toList.all Char.isDigit then
    .ok (digitsToNat s.toList)
  else .error intErrMsg

/-- Python `int(x)` on a float: truncation toward zero. -/
def ratTrunc (q : ℚ) : ℤ := if q < 0 then -Int.floor (-q) else Int.floor q

/-! ### The `Table.Column` data model (`table.py` lines 13-29) -/

/-- The Python value stored in `Column.width`: a string, an int/float
number, or `None` (any other shape hits the `else: raise` branch, which
`pynone` also covers). -/
inductive PyWidth
  | str (s : String)
  | num (q : ℚ)
  | pynone
  deriving DecidableEq

/-- The Python value stored in `Column.property`: an index (int) or a
key (string). -/
inductive PropVal
  | idx (n : ℤ)
  | key (s : String)
  deriving DecidableEq

/-- One field of `Table.Column` per namedtuple field, each defaulting to
`None`. -/
structure Column where
  width : PyWidth := .pynone
  borders : Option String := none
  alignment : Option String := none
  property : Option PropVal := none
  header : Option String := none
  hfont : Option ℤ := none
  dfont : Option ℤ := none
  hcolor : Option ℤ := none
  dcolor : Option ℤ := none
  deriving DecidableEq

/-- A row of `Table.data`: a list (positional), a dict with string keys,
or any other Python object. -/
inductive DataRow
  | list (xs : List String)
  | dict (entries : List (String × String))
  | other
  deriving DecidableEq

structure Table where
  columns : List Column
  data : List DataRow
  lmargin : ℤ := 0
  deriving DecidableEq

/-! ### `Table.column_widths` (`table.py` lines 189-241) -/

/-- `doc_width = 1440 * 6.5` (8.5 x 11 portrait paper, 1 inch margins). -/
def docWidth : ℚ := 1440 * (6.5 : ℚ)

/-- Width mode resolved for one column: absolute twips (`use_units`) or
fraction of the page (`use_percent`). -/
inductive WMode
  | units
  | pct
  deriving DecidableEq

/-- The first classification step of the loop body: the float value `w`
before the `w > 1` test.  A percent string `s` is converted by
`float('.' + s[:-1])`; a plain string by `float(s)`; indexing `s[-1]`
of an empty string raises `IndexError`. -/
def widthFloat (width : PyWidth) : Except String ℚ :=
  match width with
  | .str s =>
    match s.toList.getLast? with
    | none => .error strIdxErrMsg
    | some c =>
      if c = '%' then
        match pyFloatChars ('.' :: s.toList.dropLast) with
        | some q => .ok q
        | none => .error floatErrMsg
      else
        match pyFloatChars s.toList with
        | some q => .ok q
        | none => .error floatErrMsg
  | .num q => .ok q
  | .pynone => .error valueErrWidthShape

/-- `int(column.width)` in the `w > 1` branch: truncation for a number,
decimal-literal parsing for a string, `TypeError` for `None`. -/
def pyIntOfWidth (width : PyWidth) : Except String ℤ :=
  match width with
  | .str s => pyIntStr s
  | .num q => .ok (ratTrunc q)
  | .pynone => .error typeErrMsg

/-- The whole loop body of `column_widths` for one column: classify the
width and produce its mode together with the value appended to
`widths` (`int(column.width)` in units mode, `w * doc_width` in percent
mode). -/
def resolveWidth (width : PyWidth) : Except String (WMode × ℚ) := do
  let w ← widthFloat width
  if 1 < w then do
    let i ← pyIntOfWidth width
    pure (WMode.units, (i : ℚ))
  else
    pure (WMode.pct, w * docWidth)

/-- The classification loop over all columns. -/
def Table.resolvedWidths (t : Table) : Except String (List (WMode × ℚ)) :=
  mapE (fun c => resolveWidth c.width) t.columns

/-- `column_widths` up to and including the page-width coercion: the
mixed-type check, the `w / total_width * (doc_width - lmargin)`
comprehension (raising `ZeroDivisionError` when `total_width` is zero
and at least one division is executed), and the extra
`* (doc_width - lmargin)` pass applied in percent mode. -/
def Table.coercedWidths (t : Table) : Except String (List ℚ) := do
  let rs ← t.resolvedWidths
  let usePercent := rs.any (fun r => r.1 = WMode.pct)
  let useUnits := rs.any (fun r => r.1 = WMode.units)
  if usePercent && useUnits then
    Except.error mixedErrMsg
  else
    let widths := rs.map (fun r => r.2)
    let total := widths.sum
    let coerced ← mapE (fun w =>
      if total = 0 then Except.error zeroDivMsg
      else Except.ok (w / total * (docWidth - (t.lmargin : ℚ)))) widths
    if usePercent then
      pure (coerced.map (fun w => w * (docWidth - (t.lmargin : ℚ))))
    else
      pure coerced

/-- The accumulation loop converting widths to cumulative right-edge
extents: `extents.append(w + total_width); total_width += w`. -/
def extentsFrom (acc : ℚ) : List ℚ → List ℚ
  | [] => []
  | w :: ws => (acc + w) :: extentsFrom (acc + w) ws

/-- The list of cumulative extents computed by `column_widths`. -/
def Table.columnExtents (t : Table) : Except String (List ℚ) :=
  Except.map (extentsFrom 0) t.coercedWidths

/-- `Table.column_widths`: the final `\cellx{int(w)}` specification
string. -/
def Table.column_widths (t : Table) : Except String String :=
  Except.map
    (fun es => String.join (es.map (fun e => "\\cellx" ++ toString (ratTrunc e))) ++ "\n")
    t.columnExtents

/-! ### Row rendering (`table.py` lines 66-187) -/

/-- `Table.begin_row`. -/
def Table.begin_row : String := "\x7b\\trowd\\trgaph180\n"

/-- `Table.end_row`. -/
def Table.end_row : String := "\\row\x7d\n"

/-- A cell template as left by `column_rtf_templates`: a format string
with a single remaining `%s` slot, modelled as the text before and
after that slot. -/
structure CellTmpl where
  pre : String
  post : String
  deriving DecidableEq

/-- Applying the `%` operator to a cell template. -/
def CellTmpl.subst (c : CellTmpl) (s : String) : String := c.pre ++ s ++ c.post

/-- Python truthiness of an optional string: `column.alignment or 'l'`
falls back on the default for `None` and for the empty string. -/
def orDefault (v : Option String) (d : String) : String :=
  match v with
  | some s => if s = "" then d else s
  | none => d

/-- The border control words accumulated from `column.borders`:
one `\brdr<b>\brdrs\brdrw10\brsp20` group per character that is one of
`lrtb`. -/
def borderRtf (borders : Option String) : String :=
  (orDefault borders "").toList.foldl
    (fun acc b =>
      if b ∈ ['l', 'r', 't', 'b'] then
        acc ++ "\\brdr" ++ String.singleton b ++ "\\brdrs\\brdrw10\\brsp20"
      else acc) ""

/-- The cell template built for one column by `column_rtf_templates`. -/
def cellTemplate (c : Column) : CellTmpl :=
  { pre := "\x7b\\pard\\q" ++ orDefault c.alignment "l" ++ "\\intbl"
      ++ borderRtf c.borders ++ " "
    post := "\\cell\x7d\n" }

/-- `Table.column_rtf_templates`. -/
def Table.column_rtf_templates (t : Table) : List CellTmpl :=
  t.columns.map cellTemplate

/-- `Table.has_headers`: true when at least one column's `header` is not
`None`. -/
def Table.has_headers (t : Table) : Bool :=
  t.columns.any (fun c => c.header.isSome)

/-- The loop body of `Table.headers` for one (column, cell template)
pair: a column without a header contributes nothing; a column with a
header builds `\f<hfont>` (if any), and the `hcolor` branch assigns to
the misspelled name `col_rtg`, raising `NameError` whenever reached. -/
def headerCell (p : Column × CellTmpl) : Except String String :=
  match p.1.header with
  | none => Except.ok ""
  | some h =>
    let withFont :=
      match p.1.hfont with
      | some n => "\\f" ++ toString n
      | none => ""
    match p.1.hcolor with
    | some _ => Except.error nameErrMsg
    | none => Except.ok (p.2.subst (withFont ++ " " ++ h))

/-- `Table.headers`: the header block. -/
def Table.headers (t : Table) (cells : List CellTmpl) : Except String String := do
  let pieces ← mapE headerCell (t.columns.zip cells)
  pure ("\x7b" ++ String.join pieces ++ "\x7d\n")

/-- Conversion `int(column.property)` used when the data row is a list. -/
def propToInt (p : Option PropVal) : Except String ℤ :=
  match p with
  | some (.idx n) => .ok n
  | some (.key s) => pyIntStr s
  | none => .error typeErrMsg

/-- Python list indexing `data[i]`, including negative indices;
out-of-range raises `IndexError`. -/
def pyListGet (xs : List String) (i : ℤ) : Except String String :=
  if 0 ≤ i ∧ i < (xs.length : ℤ) then
    .ok (xs.getD i.toNat "")
  else if -(xs.length : ℤ) ≤ i ∧ i < 0 then
    .ok (xs.getD (xs.length - (-i).toNat) "")
  else .error idxErrMsg

/-- Python dict lookup `data[key]`; a missing key raises `KeyError`. -/
def dictGet (entries : List (String × String)) (k : String) : Except String String :=
  match entries.lookup k with
  | some v => .ok v
  | none => .error keyErrMsg

/-- `Table.data_value`: `data[int(column.property)]` for a list row,
`data[column.property]` for a dict row, and the literal `"#ERR#"` for a
row of any other type.  A string-keyed dict indexed by a non-string
property misses and raises `KeyError`. -/
def Table.data_value (column : Column) (data : DataRow) : Except String String :=
  match data with
  | .list xs => do
    let i ← propToInt column.property
    pyListGet xs i
  | .dict entries =>
    match column.property with
    | some (.key s) => dictGet entries s
    | _ => .error keyErrMsg
  | .other => .ok "#ERR#"

/-- `Table.data_row`: one rendered data row. -/
def Table.data_row (t : Table) (cells : List CellTmpl) (data : DataRow) :
    Except String String := do
  let pieces ← mapE (fun p => do
    let withFont :=
      match p.1.dfont with
      | some n => "\\f" ++ toString n
      | none => ""
    let withColor :=
      match p.1.dcolor with
      | some n => withFont ++ "\\cf" ++ toString n
      | none => withFont
    let v ← Table.data_value p.1 data
    pure (p.2.subst (withColor ++ v))) (t.columns.zip cells)
  pure ("\x7b" ++ String.join pieces ++ "\x7d\n")

/-- The loop body of `Table.__str__` for one data row: render the row
and wrap it between `begin_row + rtf_widths` and `end_row`. -/
def Table.dataRowRtf (t : Table) (rtfWidths : String) (row : DataRow) :
    Except String String := do
  let r ← t.data_row t.column_rtf_templates row
  pure (Table.begin_row ++ rtfWidths ++ r ++ Table.end_row)

/-- The list `rows` accumulated by `Table.__str__`: an optional header
row followed by one row per element of `data`, each wrapped between
`begin_row + rtf_widths` and `end_row`. -/
def Table.renderRows (t : Table) : Except String (List String) := do
  let rtfWidths ← t.column_widths
  let headRows ←
    match t.has_headers with
    | true => do
      let h ← t.headers t.column_rtf_templates
      pure [Table.begin_row ++ rtfWidths ++ h ++ Table.end_row]
    | false => pure ([] : List String)
  let dataRows ← mapE (t.dataRowRtf rtfWidths) t.data
  pure (headRows ++ dataRows)

/-- `Table.__str__`: the final joined RTF string. -/
def Table.render (t : Table) : Except String String :=
  Except.map
    (fun rows => "\n" ++ String.intercalate "\n" rows ++ "\n")
    t.renderRows

/-! ### `TextRun` shorthand translation (`pyrtf.py` lines 183-229) -/

namespace TextRun

/-- One find/replace rule of the shorthand translator. -/
structure Replacement where
  old : String
  new : String
  deriving DecidableEq

/-- The fixed, ordered rule list `TextRun.replacements`. -/
def replacements : List Replacement := [
  -- Bold
  ⟨" __", " \\b "⟩,
  ⟨"__ ", "\\b0  "⟩,
  ⟨"__, ", "\\b0 , "⟩,
  ⟨"__.", "\\b0 ."⟩,
  -- Italics
  ⟨" _", " \\i "⟩,
  ⟨"_ ", "\\i0  "⟩,
  ⟨"_, ", "\\i0 , "⟩,
  ⟨"_.", "\\i0 ."⟩,
  -- Small Caps
  ⟨"[[", "\\scaps "⟩,
  ⟨"]]", "\\scaps0 "⟩,
  -- New Line
  ⟨"\\n", "\\line \n"⟩,
  -- Practitioner Notes
  ⟨"[NOTE: ", "[\\b\\cf2 NOTE\\b0\\cf1 :"⟩
]

/-- Python `str.replace` on character lists: scan left to right,
replacing each non-overlapping occurrence of `old` (taken non-empty)
by `new`.  The fuel argument, initialised to the input length, only
serves termination; it never runs out. -/
def replaceAux (old new : List Char) : ℕ → List Char → List Char
  | 0, s => s
  | _ + 1, [] => []
  | fuel + 1, c :: rest =>
    if old ≠ [] ∧ old.isPrefixOf (c :: rest) then
      new ++ replaceAux old new fuel ((c :: rest).drop old.length)
    else
      c :: replaceAux old new fuel rest

/-- Python `s.replace(old, new)`. -/
def pyReplace (s old new : String) : String :=
  String.mk (replaceAux old.toList new.toList s.toList.length s.toList)

/-- `TextRun.md2rtf`: apply every replacement rule, in declared order,
to the whole text. -/
def md2rtf (text : String) : String :=
  replacements.foldl (fun acc r => pyReplace acc r.old r.new) text

end TextRun

/-! ### General lemmas about the embedding combinators -/

theorem mapE_ok_length {f : α → Except String β} {l : List α} {ys : List β}
    (h : mapE f l = .ok ys) : ys.length = l.length := by
  induction l generalizing ys with
  | nil => simp [mapE] at h; simp [← h]
  | cons x xs ih =>
    simp only [mapE, Bind.bind, Except.bind] at h
    cases hx : f x with
    | error e => rw [hx] at h; cases h
    | ok y =>
      rw [hx] at h
      cases hxs : mapE f xs with
      | error e => rw [hxs] at h; cases h
      | ok ys' =>
        rw [hxs] at h
        simp only [pure, Except.pure, Except.ok.injEq] at h
        subst h
        simp [ih hxs]

theorem mapE_ok_of_forall {f : α → Except String β} {g : α → β} {l : List α}
    (h : ∀ x ∈ l, f x = .ok (g x)) : mapE f l = .ok (l.map g) := by
  induction l with
  | nil => simp [mapE]
  | cons x xs ih =>
    simp only [mapE, Bind.bind, Except.bind]
    rw [h x (by simp)]
    rw [ih (fun x hx => h x (by simp [hx]))]
    simp [pure, Except.pure]

theorem mapE_ok_forall_mem {f : α → Except String β} {l : List α} {ys : List β}
    (h : mapE f l = .ok ys) : ∀ y ∈ ys, ∃ x ∈ l, f x = .ok y := by
  induction l generalizing ys with
  | nil => cases h; simp
  | cons x xs ih =>
    simp only [mapE, Bind.bind, Except.bind] at h
    cases hx : f x with
    | error e => rw [hx] at h; cases h
    | ok y =>
      rw [hx] at h
      cases hxs : mapE f xs with
      | error e => rw [hxs] at h; cases h
      | ok ys' =>
        rw [hxs] at h
        simp only [pure, Except.pure, Except.ok.injEq] at h
        subst h
        intro z hz
        rcases List.mem_cons.1 hz with hz | hz
        · exact ⟨x, by simp, by rw [hx, hz]⟩
        · rcases ih hxs z hz with ⟨x', hx', hfx'⟩
          exact ⟨x', by simp [hx'], hfx'⟩

theorem mapE_ok_forall_src {f : α → Except String β} {l : List α} {ys : List β}
    (h : mapE f l = .ok ys) : ∀ x ∈ l, ∃ y ∈ ys, f x = .ok y := by
  induction l generalizing ys with
  | nil => simp
  | cons x xs ih =>
    simp only [mapE, Bind.bind, Except.bind] at h
    cases hx : f x with
    | error e => rw [hx] at h; cases h
    | ok y =>
      rw [hx] at h
      cases hxs : mapE f xs with
      | error e => rw [hxs] at h; cases h
      | ok ys' =>
        rw [hxs] at h
        simp only [pure, Except.pure, Except.ok.injEq] at h
        subst h
        intro z hz
        rcases List.mem_cons.1 hz with hz | hz
        · exact ⟨y, by simp, by rw [hz, hx]⟩
        · rcases ih hxs z hz with ⟨y', hy', hfy'⟩
          exact ⟨y', by simp [hy'], hfy'⟩

theorem mapE_error_of_mem {f : α → Except String β} {l : List α} {e : String}
    (hall : ∀ x ∈ l, (∃ y, f x = .ok y) ∨ f x = .error e)
    (hex : ∃ x ∈ l, f x = .error e) : mapE f l = .error e := by
  induction l with
  | nil => rcases hex with ⟨x, hx, _⟩; cases hx
  | cons x xs ih =>
    simp only [mapE, Bind.bind, Except.bind]
    rcases hall x (by simp) with ⟨y, hy⟩ | hy
    · rw [hy]
      have hex' : ∃ x ∈ xs, f x = .error e := by
        rcases hex with ⟨z, hz, hfz⟩
        rcases List.mem_cons.1 hz with hz | hz
        · rw [hz, hy] at hfz; cases hfz
        · exact ⟨z, hz, hfz⟩
      rw [ih (fun x hx => hall x (by simp [hx])) hex']
    · rw [hy]

theorem zip_self_map (l : List α) (g : α → β) :
    l.zip (l.map g) = l.map (fun a => (a, g a)) := by
  induction l with
  | nil => rfl
  | cons x xs ih => simp [ih]

/-! ### Bounds on digit-string values -/

theorem digitsValAux_nil (acc : ℕ) : digitsValAux acc [] = acc := rfl

theorem digitsValAux_cons (acc : ℕ) (c : Char) (cs : List Char) :
    digitsValAux acc (c :: cs) = digitsValAux (acc * 10 + (c.toNat - 48)) cs := rfl

theorem digitsValAux_lt {l : List Char} (hl : ∀ c ∈ l, c.isDigit) :
    ∀ {acc k : ℕ}, acc < 10 ^ k → digitsValAux acc l < 10 ^ (k + l.length) := by
  induction l with
  | nil =>
    intro acc k hacc
    rw [digitsValAux_nil]
    simpa using hacc
  | cons c cs ih =>
    intro acc k hacc
    have hc : c.toNat - 48 < 10 := by
      have hd := hl c (by simp)
      simp only [Char.isDigit, Bool.and_eq_true, decide_eq_true_eq] at hd
      have : c.toNat ≤ 57 := hd.2
      omega
    have hstep : acc * 10 + (c.toNat - 48) < 10 ^ (k + 1) := by
      rw [pow_succ]
      have h1 : (acc + 1) * 10 ≤ 10 ^ k * 10 :=
        mul_le_mul_right' (Nat.succ_le_of_lt hacc) 10
      omega
    have hrec := ih (fun c hc => hl c (by simp [hc])) hstep
    have hlen : k + 1 + cs.length = k + (c :: cs).length := by
      simp [List.length_cons]; omega
    rw [digitsValAux_cons, ← hlen]
    exact hrec

theorem digitsToNat_lt {l : List Char} (hl : ∀ c ∈ l, c.isDigit) :
    digitsToNat l < 10 ^ l.length := by
  have h0 : (0 : ℕ) < 10 ^ 0 := by simp
  have := digitsValAux_lt hl h0
  simpa [digitsToNat] using this

/-! ### Lower bound on absolute-mode resolved widths -/

theorem pyFloatChars_all_digits {l : List Char} (hne : l ≠ [])
    (hl : ∀ c ∈ l, c.isDigit) : pyFloatChars l = some ((digitsToNat l : ℚ)) := by
  have htake : l.takeWhile Char.isDigit = l := List.takeWhile_eq_self_iff.2 hl
  have hdrop : l.dropWhile Char.isDigit = [] := List.dropWhile_eq_nil_iff.2 hl
  simp only [pyFloatChars, htake, hdrop]
  simp [List.isEmpty_iff, hne]

theorem pyFloatChars_dot_lt_one {l : List Char} {q : ℚ}
    (h : pyFloatChars ('.' :: l) = some q) : q < 1 := by
  have htake : ('.' :: l).takeWhile Char.isDigit = [] := by
    simp [List.takeWhile]
  have hdrop : ('.' :: l).dropWhile Char.isDigit = '.' :: l := by
    simp [List.dropWhile]
  simp only [pyFloatChars, htake, hdrop] at h
  by_cases hcond : l.all Char.isDigit ∧ (([] : List Char) ≠ [] ∨ l ≠ [])
  · rw [if_pos hcond] at h
    obtain ⟨hall, -⟩ := hcond
    have hlt : digitsToNat l < 10 ^ l.length :=
      digitsToNat_lt (fun c hc => by
        have := List.all_eq_true.1 hall c hc
        exact this)
    have hq : q = (digitsToNat [] : ℚ) + (digitsToNat l : ℚ) / (10 : ℚ) ^ l.length := by
      injection h with h'; exact h'.symm
    have hzero : (digitsToNat ([] : List Char) : ℚ) = 0 := by simp [digitsToNat, digitsValAux_nil]
    rw [hq, hzero, zero_add]
    rw [div_lt_one (by positivity)]
    exact_mod_cast hlt
  · rw [if_neg hcond] at h; cases h

theorem resolveWidth_units_ge_one {width : PyWidth} {v : ℚ}
    (h : resolveWidth width = .ok (WMode.units, v)) : 1 ≤ v := by
  simp only [resolveWidth, Bind.bind, Except.bind] at h
  cases hw : widthFloat width with
  | error e => rw [hw] at h; cases h
  | ok w =>
    rw [hw] at h
    dsimp only [] at h
    by_cases h1 : 1 < w
    · rw [if_pos h1] at h
      cases hi : pyIntOfWidth width with
      | error e => rw [hi] at h; cases h
      | ok i =>
        rw [hi] at h
        dsimp only [] at h
        simp only [pure, Except.pure, Except.ok.injEq, Prod.mk.injEq] at h
        obtain ⟨-, hv⟩ := h
        subst hv
        cases width with
        | pynone => simp [widthFloat] at hw
        | num q =>
          simp only [widthFloat, Except.ok.injEq] at hw
          simp only [pyIntOfWidth, Except.ok.injEq] at hi
          subst hi
          rw [← hw] at h1
          simp only [ratTrunc]
          rw [if_neg (by linarith : ¬ (q < 0))]
          have hfl : (1 : ℤ) ≤ ⌊q⌋ := Int.le_floor.2 (by exact_mod_cast le_of_lt h1)
          exact_mod_cast hfl
        | str s =>
          simp only [pyIntOfWidth, pyIntStr] at hi
          by_cases hguard : s.toList ≠ [] ∧ s.toList.all Char.isDigit
          · rw [if_pos hguard] at hi
            obtain ⟨hne, hall⟩ := hguard
            have hdig : ∀ c ∈ s.toList, c.isDigit := fun c hc => List.all_eq_true.1 hall c hc
            -- last char is a digit, hence not a percent sign
            have hc : s.toList.getLast? = some (s.toList.getLast hne) :=
              List.getLast?_eq_getLast_of_ne_nil hne
            have hcdig : (s.toList.getLast hne).isDigit :=
              hdig _ (List.getLast_mem hne)
            have hcpct : ¬ (s.toList.getLast hne = '%') := by
              intro hcp; rw [hcp] at hcdig; exact absurd hcdig (by decide)
            have hwf : widthFloat (.str s) = .ok ((digitsToNat s.toList : ℚ)) := by
              simp only [widthFloat, hc, if_neg hcpct, pyFloatChars_all_digits hne hdig]
            rw [hw] at hwf
            injection hwf with hwq
            injection hi with hi'
            subst hi'
            rw [hwq] at h1
            exact_mod_cast le_of_lt h1
          · rw [if_neg hguard] at hi; cases hi
    · rw [if_neg h1] at h
      simp only [pure, Except.pure, Except.ok.injEq, Prod.mk.injEq] at h
      cases h.1


/-! ### Structure of the extents accumulation -/

theorem extentsFrom_nil (acc : ℚ) : extentsFrom acc [] = [] := rfl

theorem extentsFrom_cons (acc w : ℚ) (ws : List ℚ) :
    extentsFrom acc (w :: ws) = (acc + w) :: extentsFrom (acc + w) ws := rfl

theorem extentsFrom_last (ws : List ℚ) :
    ∀ acc w : ℚ, (extentsFrom acc (w :: ws)).getLast? = some (acc + (w :: ws).sum) := by
  induction ws with
  | nil => intro acc w; simp [extentsFrom_cons, extentsFrom_nil]
  | cons w' ws' ih =>
    intro acc w
    rw [extentsFrom_cons, extentsFrom_cons, List.getLast?_cons_cons, ← extentsFrom_cons,
      ih (acc + w) w']
    simp only [List.sum_cons, Option.some.injEq]
    ring

theorem extentsFrom_chain (ws : List ℚ) :
    (∀ w ∈ ws, 0 < w) → ∀ acc : ℚ, List.Chain' (· < ·) (extentsFrom acc ws) := by
  induction ws with
  | nil => intro _ acc; simp [extentsFrom_nil]
  | cons w ws' ih =>
    intro hpos acc
    rw [extentsFrom_cons, List.chain'_cons']
    refine ⟨?_, ih (fun x hx => hpos x (by simp [hx])) (acc + w)⟩
    intro y hy
    cases hws : ws' with
    | nil => rw [hws, extentsFrom_nil] at hy; simp at hy
    | cons w2 ws2 =>
      rw [hws, extentsFrom_cons] at hy
      simp only [List.head?_cons, Option.mem_def, Option.some.injEq] at hy
      have hw2 : 0 < w2 := hpos w2 (by simp [hws])
      rw [← hy]
      linarith


/-! ### Characterizations of the page-width coercion -/

theorem mapE_cons_error {f : α → Except String β} {x : α} {e : String}
    (hx : f x = .error e) (xs : List α) : mapE f (x :: xs) = .error e := by
  simp only [mapE, Bind.bind, Except.bind, hx]

theorem coercedWidths_all_units {t : Table} {rs : List (WMode × ℚ)}
    (hrs : t.resolvedWidths = .ok rs)
    (hall : ∀ r ∈ rs, r.1 = WMode.units)
    (htot : (rs.map (fun r => r.2)).sum ≠ 0) :
    t.coercedWidths = .ok ((rs.map (fun r => r.2)).map
      (fun w => w / (rs.map (fun r => r.2)).sum * (docWidth - (t.lmargin : ℚ)))) := by
  have hpct : rs.any (fun r => decide (r.1 = WMode.pct)) = false := by
    rw [List.any_eq_false]
    intro r hr
    simp [hall r hr]
  simp only [Table.coercedWidths, Bind.bind, Except.bind]
  rw [hrs]
  dsimp only []
  rw [hpct]
  simp only [Bool.false_and, Bool.false_eq_true, if_false]
  rw [mapE_ok_of_forall (fun w _ => if_neg htot)]
  simp [pure, Except.pure]

theorem coercedWidths_all_pct {t : Table} {rs : List (WMode × ℚ)}
    (hrs : t.resolvedWidths = .ok rs)
    (hall : ∀ r ∈ rs, r.1 = WMode.pct)
    (htot : (rs.map (fun r => r.2)).sum ≠ 0) :
    t.coercedWidths = .ok (((rs.map (fun r => r.2)).map
      (fun w => w / (rs.map (fun r => r.2)).sum * (docWidth - (t.lmargin : ℚ)))).map
      (fun w => w * (docWidth - (t.lmargin : ℚ)))) := by
  have hne : rs ≠ [] := by
    intro h; rw [h] at htot; simp at htot
  have hunits : rs.any (fun r => decide (r.1 = WMode.units)) = false := by
    rw [List.any_eq_false]
    intro r hr
    simp [hall r hr]
  have hpct : rs.any (fun r => decide (r.1 = WMode.pct)) = true := by
    rw [List.any_eq_true]
    cases hc : rs with
    | nil => exact absurd hc hne
    | cons r rs' => exact ⟨r, by simp, by simp [hall r (by simp [hc])]⟩
  simp only [Table.coercedWidths, Bind.bind, Except.bind]
  rw [hrs]
  dsimp only []
  rw [hpct, hunits]
  simp only [Bool.true_and, Bool.false_eq_true, if_false]
  rw [mapE_ok_of_forall (fun w _ => if_neg htot)]
  simp [pure, Except.pure]

theorem coercedWidths_zero_total {t : Table} {rs : List (WMode × ℚ)}
    (hrs : t.resolvedWidths = .ok rs)
    (hall : ∀ r ∈ rs, r.1 = WMode.pct)
    (hne : rs ≠ [])
    (htot : (rs.map (fun r => r.2)).sum = 0) :
    t.coercedWidths = .error zeroDivMsg := by
  have hunits : rs.any (fun r => decide (r.1 = WMode.units)) = false := by
    rw [List.any_eq_false]
    intro r hr
    simp [hall r hr]
  simp only [Table.coercedWidths, Bind.bind, Except.bind]
  rw [hrs]
  dsimp only []
  rw [hunits]
  simp only [Bool.and_false, Bool.false_eq_true, if_false]
  cases hc : rs with
  | nil => exact absurd hc hne
  | cons r rs' =>
    rw [hc] at htot
    rw [List.map_cons] at htot ⊢
    rw [mapE_cons_error (f := fun w =>
      if (r.2 :: List.map (fun x => x.2) rs').sum = 0 then Except.error zeroDivMsg
      else Except.ok (w / (r.2 :: List.map (fun x => x.2) rs').sum * (docWidth - (t.lmargin : ℚ))))
      (if_pos htot) (List.map (fun x => x.2) rs')]


/-! ### Error propagation through the render pipeline, and claims C1, C5, C10 -/

theorem pct_ne_units : ¬ (WMode.pct = WMode.units) := by intro h; cases h

theorem coercedWidths_resolve_error {t : Table} {e : String}
    (h : t.resolvedWidths = .error e) : t.coercedWidths = .error e := by
  simp only [Table.coercedWidths, Bind.bind, Except.bind, h]

theorem columnExtents_error {t : Table} {e : String}
    (h : t.coercedWidths = .error e) : t.columnExtents = .error e := by
  simp [Table.columnExtents, h, Except.map]

theorem columnExtents_ok {t : Table} {ws : List ℚ}
    (h : t.coercedWidths = .ok ws) : t.columnExtents = .ok (extentsFrom 0 ws) := by
  simp [Table.columnExtents, h, Except.map]

theorem column_widths_error {t : Table} {e : String}
    (h : t.columnExtents = .error e) : t.column_widths = .error e := by
  simp [Table.column_widths, h, Except.map]

theorem renderRows_widths_error {t : Table} {e : String}
    (h : t.column_widths = .error e) : t.renderRows = .error e := by
  simp only [Table.renderRows, Bind.bind, Except.bind, h]

theorem render_rows_error {t : Table} {e : String}
    (h : t.renderRows = .error e) : t.render = .error e := by
  simp [Table.render, h, Except.map]

theorem coercedWidths_mixed_error {t : Table} {rs : List (WMode × ℚ)}
    (hrs : t.resolvedWidths = .ok rs)
    (hp : ∃ r ∈ rs, r.1 = WMode.pct)
    (hu : ∃ r ∈ rs, r.1 = WMode.units) :
    t.coercedWidths = .error mixedErrMsg := by
  have hpa : rs.any (fun r => decide (r.1 = WMode.pct)) = true := by
    rw [List.any_eq_true]
    rcases hp with ⟨r, hr, hrp⟩
    exact ⟨r, hr, by simp [hrp]⟩
  have hua : rs.any (fun r => decide (r.1 = WMode.units)) = true := by
    rw [List.any_eq_true]
    rcases hu with ⟨r, hr, hru⟩
    exact ⟨r, hr, by simp [hru]⟩
  simp only [Table.coercedWidths, Bind.bind, Except.bind]
  rw [hrs]
  dsimp only []
  rw [hpa, hua]
  simp

/-- The 2-column, all-fraction table of the spec example: widths
`[0.5, 0.5]`, no data, left margin 0. -/
def tableHalves : Table :=
  { columns := [{ width := .num (1/2) }, { width := .num (1/2) }], data := [], lmargin := 0 }

/-- C1: code bug.  `column_widths` multiplies fraction-mode widths by the
page width twice (once inside the classification loop, once in the
"convert decimals to twips" pass that runs after the widths were already
coerced to twips), so for widths `[0.5, 0.5]` with left margin 0 the
cumulative extents are 43804800 and 87609600 — not the 4680 and 9360
the claim (and the spec example) requires. -/
theorem c1_fraction_double_rescale_eval :
    tableHalves.columnExtents = .ok [43804800, 87609600] ∧
    tableHalves.columnExtents ≠ .ok [4680, 9360] := by
  have h : tableHalves.columnExtents = .ok [43804800, 87609600] := by
    norm_num [tableHalves, Table.columnExtents, Table.coercedWidths, Table.resolvedWidths,
      mapE, resolveWidth, widthFloat, pyIntOfWidth, Bind.bind, Except.bind, pure,
      Except.pure, Except.map, docWidth, extentsFrom_nil, extentsFrom_cons, pct_ne_units]
  refine ⟨h, ?_⟩
  rw [h]
  intro hcontra
  simp only [Except.ok.injEq, List.cons.injEq] at hcontra
  obtain ⟨h1, -⟩ := hcontra
  norm_num at h1

/-- C5: code bug.  A percent string is parsed by prepending a decimal
point to everything before the percent sign (`float('.' + s[:-1])`),
not by dividing the numeric prefix by 100: `'20%'` happens to give 1/5,
but `'5%'` gives 1/2 (the claim requires 1/20) and `'100%'` gives 1/10
(the claim requires 1). -/
theorem c5_percent_parse_eval :
    widthFloat (.str "20%") = .ok (1/5) ∧
    widthFloat (.str "5%") = .ok (1/2) ∧
    widthFloat (.str "100%") = .ok (1/10) ∧
    widthFloat (.str "5%") ≠ .ok (1/20) ∧
    widthFloat (.str "100%") ≠ .ok 1 := by
  have h20 : widthFloat (.str "20%") = .ok (((0:ℕ):ℚ) + ((20:ℕ):ℚ) / (10:ℚ) ^ (2:ℕ)) := rfl
  have h5 : widthFloat (.str "5%") = .ok (((0:ℕ):ℚ) + ((5:ℕ):ℚ) / (10:ℚ) ^ (1:ℕ)) := rfl
  have h100 : widthFloat (.str "100%") = .ok (((0:ℕ):ℚ) + ((100:ℕ):ℚ) / (10:ℚ) ^ (3:ℕ)) := rfl
  refine ⟨by rw [h20]; norm_num, by rw [h5]; norm_num, by rw [h100]; norm_num, ?_, ?_⟩
  · rw [h5]
    intro hcontra
    simp only [Except.ok.injEq] at hcontra
    norm_num at hcontra
  · rw [h100]
    intro hcontra
    simp only [Except.ok.injEq] at hcontra
    norm_num at hcontra

/-- C10: confirmed.  The shorthand translator applies its literal
find/replace rules in declared order, and on `"a __bold__ word"` it
emits `\b ` immediately before `bold` and `\b0 ` immediately after it,
leaving the surrounding text unchanged. -/
theorem c10_bold_shorthand :
    TextRun.md2rtf "a __bold__ word" = "a " ++ "\\b " ++ "bold" ++ "\\b0 " ++ " word" := by
  decide


/-! ### Claim C4 -/

/-- C4: confirmed.  If one column resolves to fraction mode and another
to absolute mode, `column_widths` raises (the mixed-type `ValueError`
when every column classifies, or the per-column classification error
otherwise) instead of producing widths, and the whole table render
fails with the same error. -/
theorem c4_mixed_modes_error (t : Table) (c₁ c₂ : Column) (v₁ v₂ : ℚ)
    (h₁ : c₁ ∈ t.columns) (h₂ : c₂ ∈ t.columns)
    (hr₁ : resolveWidth c₁.width = .ok (WMode.pct, v₁))
    (hr₂ : resolveWidth c₂.width = .ok (WMode.units, v₂)) :
    ∃ e, t.column_widths = .error e ∧ t.render = .error e := by
  cases hres : t.resolvedWidths with
  | error e =>
    have hw := column_widths_error (columnExtents_error (coercedWidths_resolve_error hres))
    exact ⟨e, hw, render_rows_error (renderRows_widths_error hw)⟩
  | ok rs =>
    have hres' : mapE (fun c => resolveWidth c.width) t.columns = .ok rs := hres
    rcases mapE_ok_forall_src hres' c₁ h₁ with ⟨y₁, hy₁mem, hy₁⟩
    rcases mapE_ok_forall_src hres' c₂ h₂ with ⟨y₂, hy₂mem, hy₂⟩
    rw [hr₁] at hy₁
    rw [hr₂] at hy₂
    injection hy₁ with hy₁
    injection hy₂ with hy₂
    subst hy₁
    subst hy₂
    have hcw := coercedWidths_mixed_error hres
      ⟨(WMode.pct, v₁), hy₁mem, rfl⟩ ⟨(WMode.units, v₂), hy₂mem, rfl⟩
    have hw := column_widths_error (columnExtents_error hcw)
    exact ⟨mixedErrMsg, hw, render_rows_error (renderRows_widths_error hw)⟩

/-- A table mixing a fraction-mode width (0.5) with an absolute-mode
width (50 twips). -/
def tableMixed : Table :=
  { columns := [{ width := .num (1/2) }, { width := .num 50 }], data := [], lmargin := 0 }

/-- Witness for C4 at the concrete mixed table. -/
theorem c4_mixed_modes_error_witness :
    resolveWidth (PyWidth.num (1/2)) = .ok (WMode.pct, 4680) ∧
    resolveWidth (PyWidth.num 50) = .ok (WMode.units, 50) ∧
    ∃ e, tableMixed.column_widths = .error e ∧ tableMixed.render = .error e := by
  have hp : resolveWidth (PyWidth.num (1/2)) = .ok (WMode.pct, 4680) := by
    norm_num [resolveWidth, widthFloat, Bind.bind, Except.bind, pure, Except.pure, docWidth]
  have hu : resolveWidth (PyWidth.num 50) = .ok (WMode.units, 50) := by
    norm_num [resolveWidth, widthFloat, pyIntOfWidth, ratTrunc, Bind.bind, Except.bind,
      pure, Except.pure]
  exact ⟨hp, hu,
    c4_mixed_modes_error tableMixed { width := .num (1/2) } { width := .num 50 } 4680 50
      (by simp [tableMixed]) (by simp [tableMixed]) hp hu⟩


/-! ### Claim C2 -/

theorem units_ne_pct : ¬ (WMode.units = WMode.pct) := by intro h; cases h

/-- The 2-column all-absolute table of the spec example: widths
`[50, 50]` twips, no data, left margin 0. -/
def tableAbs50 : Table :=
  { columns := [{ width := .num 50 }, { width := .num 50 }], data := [], lmargin := 0 }

/-- C2: counterexample.  Absolute twip widths are NOT used as-is: the
unconditional page-width coercion rescales `[50, 50]` to extents
`[4680, 9360]`, not `[50, 100]`. -/
theorem c2_absolute_widths_counterexample :
    tableAbs50.columnExtents = .ok [4680, 9360] ∧
    tableAbs50.columnExtents ≠ .ok [50, 100] := by
  have h : tableAbs50.columnExtents = .ok [4680, 9360] := by
    norm_num [tableAbs50, Table.columnExtents, Table.coercedWidths, Table.resolvedWidths,
      mapE, resolveWidth, widthFloat, pyIntOfWidth, ratTrunc, Bind.bind, Except.bind, pure,
      Except.pure, Except.map, docWidth, extentsFrom_nil, extentsFrom_cons, pct_ne_units,
      units_ne_pct]
  refine ⟨h, ?_⟩
  rw [h]
  intro hcontra
  simp only [Except.ok.injEq, List.cons.injEq] at hcontra
  obtain ⟨h1, -⟩ := hcontra
  norm_num at h1

/-- C2: amended.  When every column resolves to absolute (units) mode,
the given twip values are not used as-is: each is divided by the total
and multiplied by `(doc_width − lmargin)`, so the extents are the
running sums of those rescaled widths — they depend on the page width
and on the left margin. -/
theorem c2_absolute_widths_rescaled (t : Table) (rs : List (WMode × ℚ))
    (hrs : t.resolvedWidths = .ok rs)
    (hne : rs ≠ [])
    (hall : ∀ r ∈ rs, r.1 = WMode.units) :
    t.columnExtents = .ok (extentsFrom 0 ((rs.map (fun r => r.2)).map
      (fun w => w / (rs.map (fun r => r.2)).sum * (docWidth - (t.lmargin : ℚ))))) := by
  have hge : ∀ r ∈ rs, (1:ℚ) ≤ r.2 := by
    intro r hr
    have hres' : mapE (fun c => resolveWidth c.width) t.columns = .ok rs := hrs
    rcases mapE_ok_forall_mem hres' r hr with ⟨c, hc, hcr⟩
    rcases r with ⟨m, v⟩
    have hm := hall ⟨m, v⟩ hr
    dsimp only [] at hm ⊢
    subst hm
    exact resolveWidth_units_ge_one hcr
  have htot : (rs.map (fun r => r.2)).sum ≠ 0 := by
    have hpos : (0:ℚ) < (rs.map (fun r => r.2)).sum := by
      apply List.sum_pos
      · intro x hx
        rcases List.mem_map.1 hx with ⟨r, hr, hrx⟩
        have := hge r hr
        rw [← hrx]
        linarith
      · simp only [ne_eq, List.map_eq_nil_iff]
        exact hne
    exact ne_of_gt hpos
  exact columnExtents_ok (coercedWidths_all_units hrs hall htot)

/-- Witness for the amended C2 at the concrete `[50, 50]` table. -/
theorem c2_absolute_widths_rescaled_witness :
    tableAbs50.columnExtents = .ok (extentsFrom 0
      ((([(WMode.units, 50), (WMode.units, 50)] : List (WMode × ℚ)).map (fun r => r.2)).map
        (fun w => w / (([(WMode.units, 50), (WMode.units, 50)] : List (WMode × ℚ)).map
          (fun r => r.2)).sum * (docWidth - (tableAbs50.lmargin : ℚ))))) := by
  have hrs : tableAbs50.resolvedWidths = .ok [(WMode.units, 50), (WMode.units, 50)] := by
    norm_num [tableAbs50, Table.resolvedWidths, mapE, resolveWidth, widthFloat,
      pyIntOfWidth, ratTrunc, Bind.bind, Except.bind, pure, Except.pure]
  refine c2_absolute_widths_rescaled tableAbs50 [(WMode.units, 50), (WMode.units, 50)]
    hrs (by simp) ?_
  intro r hr
  simp only [List.mem_cons, List.not_mem_nil, or_false] at hr
  rcases hr with rfl | rfl <;> rfl


/-! ### Claims C6 and C7 -/

/-- A table built with a zero-length columns list. -/
def tableNoCols : Table := { columns := [], data := [], lmargin := 0 }

/-- A table whose columns all have width 0. -/
def tableZeros : Table :=
  { columns := [{ width := .num 0 }, { width := .num 0 }], data := [], lmargin := 0 }

/-- C6: counterexample.  A zero-length columns list is NOT rejected:
`column_widths` silently returns an extents specification with no
entries (the bare newline string), because the division by the zero
total is never executed for an empty list. -/
theorem c6_empty_columns_counterexample :
    tableNoCols.column_widths = .ok "\n" := by
  rfl

/-- C6: amended.  All-zero widths do hit the division by zero and raise
`ZeroDivisionError`; but a zero-length columns list is not rejected —
it silently produces the empty extents specification. -/
theorem c6_zero_widths_amended :
    (∀ t : Table, t.columns = [] → t.column_widths = .ok "\n") ∧
    (∀ (t : Table) (rs : List (WMode × ℚ)), t.resolvedWidths = .ok rs → rs ≠ [] →
      (∀ r ∈ rs, r.2 = 0) → t.column_widths = .error zeroDivMsg) := by
  constructor
  · intro t h
    obtain ⟨cols, data, lm⟩ := t
    dsimp only [] at h
    subst h
    rfl
  · intro t rs hrs hne hzero
    have hall : ∀ r ∈ rs, r.1 = WMode.pct := by
      intro r hr
      rcases r with ⟨m, v⟩
      cases m with
      | pct => rfl
      | units =>
        have hres' : mapE (fun c => resolveWidth c.width) t.columns = .ok rs := hrs
        rcases mapE_ok_forall_mem hres' ⟨WMode.units, v⟩ hr with ⟨c, hc, hcr⟩
        have h1 := resolveWidth_units_ge_one hcr
        have h0 := hzero ⟨WMode.units, v⟩ hr
        dsimp only [] at h0
        rw [h0] at h1
        norm_num at h1
    have htot : (rs.map (fun r => r.2)).sum = 0 := by
      apply List.sum_eq_zero
      intro x hx
      rcases List.mem_map.1 hx with ⟨r, hr, hrx⟩
      rw [← hrx]
      exact hzero r hr
    exact column_widths_error (columnExtents_error
      (coercedWidths_zero_total hrs hall hne htot))

/-- Witness for the amended C6: the empty table yields `"\n"`, the
all-zero table raises the division-by-zero error. -/
theorem c6_zero_widths_amended_witness :
    tableNoCols.column_widths = .ok "\n" ∧
    tableZeros.column_widths = .error zeroDivMsg := by
  refine ⟨c6_zero_widths_amended.1 tableNoCols rfl, ?_⟩
  have hrs : tableZeros.resolvedWidths = .ok [(WMode.pct, 0), (WMode.pct, 0)] := by
    norm_num [tableZeros, Table.resolvedWidths, mapE, resolveWidth, widthFloat,
      Bind.bind, Except.bind, pure, Except.pure, docWidth]
  refine c6_zero_widths_amended.2 tableZeros [(WMode.pct, 0), (WMode.pct, 0)] hrs
    (by simp) ?_
  intro r hr
  simp only [List.mem_cons, List.not_mem_nil, or_false] at hr
  rcases hr with rfl | rfl <;> rfl

/-- Strict monotonicity and the last-element law for the extents of any
all-positive width list. -/
theorem extents_facts {ws : List ℚ} (hne : ws ≠ []) (hpos : ∀ w ∈ ws, 0 < w) :
    List.Chain' (· < ·) (extentsFrom 0 ws) ∧
    (extentsFrom 0 ws).getLast? = some ws.sum := by
  refine ⟨extentsFrom_chain ws hpos 0, ?_⟩
  cases hw : ws with
  | nil => exact absurd hw hne
  | cons w ws' =>
    rw [extentsFrom_last ws' 0 w, zero_add]

/-- A positive homogeneous table rendered with a left margin equal to
the whole page width: every coerced width collapses to 0. -/
def tableMarginWide : Table :=
  { columns := [{ width := .num 50 }, { width := .num 50 }], data := [], lmargin := 9360 }

/-- C7: counterexample.  For a non-empty, all-positive, homogeneous
table whose left margin equals the available width (9360 twips), the
extents are `[0, 0]` — not strictly increasing. -/
theorem c7_extents_counterexample :
    tableMarginWide.columnExtents = .ok [0, 0] ∧
    ¬ List.Chain' (· < ·) ([0, 0] : List ℚ) := by
  constructor
  · norm_num [tableMarginWide, Table.columnExtents, Table.coercedWidths,
      Table.resolvedWidths, mapE, resolveWidth, widthFloat, pyIntOfWidth, ratTrunc,
      Bind.bind, Except.bind, pure, Except.pure, Except.map, docWidth,
      extentsFrom_nil, extentsFrom_cons, pct_ne_units, units_ne_pct]
  · intro h
    rcases h with _ | ⟨hlt, -⟩
    exact absurd hlt (lt_irrefl 0)

/-- C7: amended.  For a non-empty columns list whose widths all resolve,
are homogeneous in kind and positive, and whose left margin is strictly
below the available width (9360 twips), the cumulative extents are
strictly increasing and the last extent equals the sum of the computed
widths. -/
theorem c7_extents_monotone_amended (t : Table) (rs : List (WMode × ℚ))
    (hrs : t.resolvedWidths = .ok rs)
    (hne : rs ≠ [])
    (hhom : (∀ r ∈ rs, r.1 = WMode.units) ∨ (∀ r ∈ rs, r.1 = WMode.pct))
    (hpos : ∀ r ∈ rs, 0 < r.2)
    (hlm : (t.lmargin : ℚ) < docWidth) :
    ∃ ws, t.coercedWidths = .ok ws ∧
      t.columnExtents = .ok (extentsFrom 0 ws) ∧
      List.Chain' (· < ·) (extentsFrom 0 ws) ∧
      (extentsFrom 0 ws).getLast? = some ws.sum := by
  have htotpos : 0 < (rs.map (fun r => r.2)).sum := by
    apply List.sum_pos
    · intro x hx
      rcases List.mem_map.1 hx with ⟨r, hr, hrx⟩
      rw [← hrx]
      exact hpos r hr
    · simp only [ne_eq, List.map_eq_nil_iff]
      exact hne
  have htot : (rs.map (fun r => r.2)).sum ≠ 0 := ne_of_gt htotpos
  have hD : 0 < docWidth - (t.lmargin : ℚ) := by linarith
  have hmapne : (rs.map (fun r => r.2)) ≠ [] := by
    simp only [ne_eq, List.map_eq_nil_iff]
    exact hne
  rcases hhom with hu | hp
  · have hcw := coercedWidths_all_units hrs hu htot
    have hpos' : ∀ w ∈ (rs.map (fun r => r.2)).map
        (fun w => w / (rs.map (fun r => r.2)).sum * (docWidth - (t.lmargin : ℚ))), 0 < w := by
      intro w hw
      rcases List.mem_map.1 hw with ⟨v, hv, hvw⟩
      rcases List.mem_map.1 hv with ⟨r, hr, hrv⟩
      rw [← hvw]
      have hv0 : 0 < v := by rw [← hrv]; exact hpos r hr
      positivity
    have hne' : ((rs.map (fun r => r.2)).map
        (fun w => w / (rs.map (fun r => r.2)).sum * (docWidth - (t.lmargin : ℚ)))) ≠ [] := by
      simp only [ne_eq, List.map_eq_nil_iff]
      exact hne
    rcases extents_facts hne' hpos' with ⟨hchain, hlast⟩
    exact ⟨_, hcw, columnExtents_ok hcw, hchain, hlast⟩
  · have hcw := coercedWidths_all_pct hrs hp htot
    have hpos' : ∀ w ∈ ((rs.map (fun r => r.2)).map
        (fun w => w / (rs.map (fun r => r.2)).sum * (docWidth - (t.lmargin : ℚ)))).map
        (fun w => w * (docWidth - (t.lmargin : ℚ))), 0 < w := by
      intro w hw
      rcases List.mem_map.1 hw with ⟨u, hu', huw⟩
      rcases List.mem_map.1 hu' with ⟨v, hv, hvu⟩
      rcases List.mem_map.1 hv with ⟨r, hr, hrv⟩
      rw [← huw, ← hvu]
      have hv0 : 0 < v := by rw [← hrv]; exact hpos r hr
      positivity
    have hne' : (((rs.map (fun r => r.2)).map
        (fun w => w / (rs.map (fun r => r.2)).sum * (docWidth - (t.lmargin : ℚ)))).map
        (fun w => w * (docWidth - (t.lmargin : ℚ)))) ≠ [] := by
      simp only [ne_eq, List.map_eq_nil_iff]
      exact hne
    rcases extents_facts hne' hpos' with ⟨hchain, hlast⟩
    exact ⟨_, hcw, columnExtents_ok hcw, hchain, hlast⟩

/-- Witness for the amended C7 at the `[50, 50]`, margin-0 table. -/
theorem c7_extents_monotone_amended_witness :
    ∃ ws, tableAbs50.coercedWidths = .ok ws ∧
      tableAbs50.columnExtents = .ok (extentsFrom 0 ws) ∧
      List.Chain' (· < ·) (extentsFrom 0 ws) ∧
      (extentsFrom 0 ws).getLast? = some ws.sum := by
  have hrs : tableAbs50.resolvedWidths = .ok [(WMode.units, 50), (WMode.units, 50)] := by
    norm_num [tableAbs50, Table.resolvedWidths, mapE, resolveWidth, widthFloat,
      pyIntOfWidth, ratTrunc, Bind.bind, Except.bind, pure, Except.pure]
  refine c7_extents_monotone_amended tableAbs50 [(WMode.units, 50), (WMode.units, 50)]
    hrs (by simp) (Or.inl ?_) ?_ ?_
  · intro r hr
    simp only [List.mem_cons, List.not_mem_nil, or_false] at hr
    rcases hr with rfl | rfl <;> rfl
  · intro r hr
    simp only [List.mem_cons, List.not_mem_nil, or_false] at hr
    rcases hr with rfl | rfl <;> norm_num
  · norm_num [tableAbs50, docWidth]


/-! ### Claim C9 -/

/-- C9: confirmed.  Any table containing a column with both a header and
a header color set cannot be rendered: the header builder hits the
misspelled `col_rtg` assignment and raises `NameError`, and whenever
the column widths themselves are computable the whole render fails with
that `NameError`. -/
theorem c9_hcolor_name_error (t : Table) (c : Column)
    (hc : c ∈ t.columns) (hh : c.header.isSome) (hcol : c.hcolor.isSome) :
    t.headers t.column_rtf_templates = .error nameErrMsg ∧
    ∀ w, t.column_widths = .ok w → t.render = .error nameErrMsg := by
  have hz : t.columns.zip t.column_rtf_templates
      = t.columns.map (fun c => (c, cellTemplate c)) := by
    simp only [Table.column_rtf_templates]
    exact zip_self_map t.columns cellTemplate
  have hall : ∀ p ∈ t.columns.map (fun c => (c, cellTemplate c)),
      (∃ y, headerCell p = .ok y) ∨ headerCell p = .error nameErrMsg := by
    intro p hp
    rcases p with ⟨col, tm⟩
    cases hhd : col.header with
    | none => exact Or.inl ⟨"", by simp [headerCell, hhd]⟩
    | some hstr =>
      cases hcl : col.hcolor with
      | some n => exact Or.inr (by simp [headerCell, hhd, hcl])
      | none =>
        refine Or.inl ⟨tm.subst ((match col.hfont with
          | some n => "\\f" ++ toString n
          | none => "") ++ " " ++ hstr), ?_⟩
        simp [headerCell, hhd, hcl]
  have hex : ∃ p ∈ t.columns.map (fun c => (c, cellTemplate c)),
      headerCell p = .error nameErrMsg := by
    refine ⟨(c, cellTemplate c), List.mem_map.2 ⟨c, hc, rfl⟩, ?_⟩
    obtain ⟨hs, hhs⟩ := Option.isSome_iff_exists.1 hh
    obtain ⟨cl, hcls⟩ := Option.isSome_iff_exists.1 hcol
    simp [headerCell, hhs, hcls]
  have hmap : mapE headerCell (t.columns.zip t.column_rtf_templates) = .error nameErrMsg := by
    rw [hz]
    exact mapE_error_of_mem hall hex
  have hhdr : t.headers t.column_rtf_templates = .error nameErrMsg := by
    simp only [Table.headers, Bind.bind, Except.bind, hmap]
  refine ⟨hhdr, ?_⟩
  intro w hw
  apply render_rows_error
  have hhh : t.has_headers = true := by
    simp only [Table.has_headers, List.any_eq_true]
    exact ⟨c, hc, by simp [hh]⟩
  simp only [Table.renderRows, Bind.bind, Except.bind, hw, hhh, hhdr]

/-- A one-column table whose column has both a header and a header
color. -/
def tableHColor : Table :=
  { columns := [{ width := .num 50, header := some "H", hcolor := some 2 }],
    data := [], lmargin := 0 }

/-- Witness for C9 at the concrete colored-header table. -/
theorem c9_hcolor_name_error_witness :
    tableHColor.headers tableHColor.column_rtf_templates = .error nameErrMsg ∧
    tableHColor.render = .error nameErrMsg := by
  have h := c9_hcolor_name_error tableHColor
    { width := .num 50, header := some "H", hcolor := some 2 }
    (by simp [tableHColor]) rfl rfl
  refine ⟨h.1, ?_⟩
  have hext : tableHColor.columnExtents = .ok [9360] := by
    norm_num [tableHColor, Table.columnExtents, Table.coercedWidths, Table.resolvedWidths,
      mapE, resolveWidth, widthFloat, pyIntOfWidth, ratTrunc, Bind.bind, Except.bind, pure,
      Except.pure, Except.map, docWidth, extentsFrom_nil, extentsFrom_cons, pct_ne_units,
      units_ne_pct]
  have hw : tableHColor.column_widths = .ok "\\cellx9360\n" := by
    have ht : ratTrunc ((9360:ℚ)) = (9360:ℤ) := by norm_num [ratTrunc]
    simp only [Table.column_widths, hext, Except.map, List.map_cons, List.map_nil, ht]
    exact congrArg Except.ok (by decide)
  exact h.2 "\\cellx9360\n" hw


/-! ### Claim C3 -/

/-- A column selecting the dict key `"name"`. -/
def colKeyName : Column := { width := .num 50, property := some (.key "name") }

/-- A column selecting positional index 3. -/
def colIdx3 : Column := { width := .num 50, property := some (.idx 3) }

/-- C3: counterexample.  A dict row that lacks the key a column selects
does NOT render the error marker: `data_value` raises `KeyError`
(`data[column.property]` with a missing key), so the cell never
receives `"#ERR#"` and the whole row aborts. -/
theorem c3_missing_field_counterexample :
    Table.data_value colKeyName (.dict [("age", "42")]) = .error keyErrMsg ∧
    Table.data_value colKeyName (.dict [("age", "42")]) ≠ .ok "#ERR#" := by
  refine ⟨rfl, ?_⟩
  intro h
  exact Except.noConfusion h

/-- C3: amended.  The fixed `"#ERR#"` marker is produced only for a row
that is neither a list nor a dict.  A dict row missing the selected key
raises `KeyError`, and a list row shorter than the selected index
raises `IndexError`; either aborts the lookup instead of rendering a
marker. -/
theorem c3_missing_field_amended :
    (∀ column : Column, Table.data_value column .other = .ok "#ERR#") ∧
    (∀ (column : Column) (entries : List (String × String)) (s : String),
      column.property = some (.key s) → entries.lookup s = none →
      Table.data_value column (.dict entries) = .error keyErrMsg) ∧
    (∀ (column : Column) (xs : List String) (n : ℤ),
      column.property = some (.idx n) → (xs.length : ℤ) ≤ n →
      Table.data_value column (.list xs) = .error idxErrMsg) := by
  refine ⟨fun column => rfl, ?_, ?_⟩
  · intro column entries s hp hl
    simp only [Table.data_value, hp]
    simp [dictGet, hl]
  · intro column xs n hp hlen
    simp only [Table.data_value, hp, propToInt, Bind.bind, Except.bind]
    simp only [pyListGet]
    rw [if_neg, if_neg]
    · intro hcontra
      omega
    · intro hcontra
      omega

/-- Witness for the amended C3 at concrete rows. -/
theorem c3_missing_field_amended_witness :
    Table.data_value colKeyName DataRow.other = .ok "#ERR#" ∧
    Table.data_value colKeyName (.dict [("age", "42")]) = .error keyErrMsg ∧
    Table.data_value colIdx3 (.list ["a", "b"]) = .error idxErrMsg :=
  ⟨c3_missing_field_amended.1 colKeyName,
   c3_missing_field_amended.2.1 colKeyName [("age", "42")] "name" rfl (by decide),
   c3_missing_field_amended.2.2 colIdx3 ["a", "b"] 3 rfl (by decide)⟩


/-! ### Claim C8 -/

/-- A one-column table whose only header is the empty string. -/
def tableEmptyHeader : Table :=
  { columns := [{ width := .num 50, header := some "" }], data := [], lmargin := 0 }

/-- A two-column table: the first column has header `"H"` with header
font 1, the second column has no header; one positional data row. -/
def tableHeaderFont : Table :=
  { columns := [
      { width := .num 50, header := some "H", hfont := some 1, property := some (.idx 0) },
      { width := .num 50, property := some (.idx 1) }],
    data := [.list ["x", "y"]], lmargin := 0 }

/-- C8: counterexample.  Two parts of the claim fail on the code.
First, header presence is tested with `is not None`, so a column
declaring the EMPTY header string still triggers a header row: the
first table declares no non-empty header, has no data rows, and yet its
render contains one (header) row block.  Second, a column without a
header is not "left blank in its position": in the two-column table the
header block contains only the header column's cell (one `\cell`
marker) — not the header cell followed by a blank cell of the
no-header column. -/
theorem c8_header_row_counterexample :
    tableEmptyHeader.has_headers = true ∧
    tableEmptyHeader.data = [] ∧
    tableEmptyHeader.renderRows =
      .ok [Table.begin_row ++ "\\cellx9360\n" ++
        "\x7b\x7b\\pard\\ql\\intbl  \\cell\x7d\n\x7d\n" ++ Table.end_row] ∧
    tableHeaderFont.headers tableHeaderFont.column_rtf_templates =
      .ok ("\x7b" ++ "\x7b\\pard\\ql\\intbl \\f1 H\\cell\x7d\n" ++ "\x7d\n") ∧
    ("\x7b" ++ "\x7b\\pard\\ql\\intbl \\f1 H\\cell\x7d\n" ++ "\x7d\n" : String) ≠
      "\x7b" ++ "\x7b\\pard\\ql\\intbl \\f1 H\\cell\x7d\n"
        ++ "\x7b\\pard\\ql\\intbl  \\cell\x7d\n" ++ "\x7d\n" := by
  have hext : tableEmptyHeader.columnExtents = .ok [9360] := by
    norm_num [tableEmptyHeader, Table.columnExtents, Table.coercedWidths,
      Table.resolvedWidths, mapE, resolveWidth, widthFloat, pyIntOfWidth, ratTrunc,
      Bind.bind, Except.bind, pure, Except.pure, Except.map, docWidth,
      extentsFrom_nil, extentsFrom_cons, pct_ne_units, units_ne_pct]
  have hw : tableEmptyHeader.column_widths = .ok "\\cellx9360\n" := by
    have ht : ratTrunc ((9360:ℚ)) = (9360:ℤ) := by norm_num [ratTrunc]
    simp only [Table.column_widths, hext, Except.map, List.map_cons, List.map_nil, ht]
    exact congrArg Except.ok (by decide)
  refine ⟨rfl, rfl, ?_, rfl, by decide⟩
  simp only [Table.renderRows, Bind.bind, Except.bind, hw]
  rfl

/-- The string `headerCell` produces for a column whose `hcolor` is not
set: nothing at all for a column without a header, and the column's
cell template around `\f<hfont>` (if any) and the header text for a
column with one. -/
def headerPiece (c : Column) : String :=
  match c.header with
  | none => ""
  | some h =>
    (cellTemplate c).subst ((match c.hfont with
      | some n => "\\f" ++ toString n
      | none => "") ++ " " ++ h)

/-- C8: amended.  A header row block is emitted exactly when at least
one column has `header` set to a value other than `None` — an
empty-string header counts.  Whenever the render succeeds, the rows are
one optional header row block followed by exactly one block per data
row, and the header block (when present) is the first row, built from
the computed widths and the header cells.  Whenever no header column
sets a header color (a set `hcolor` aborts rendering instead, claim
C9), the header block is the concatenation, in column order, of one
cell per column WITH a header — carrying its `hfont` decoration when
specified — while columns without a header contribute nothing at all
(they are omitted from the header row, not rendered as blank cells). -/
theorem c8_header_row_amended (t : Table) (rows : List String)
    (h : t.renderRows = .ok rows) :
    (t.has_headers = true ↔ ∃ c ∈ t.columns, c.header.isSome) ∧
    rows.length = (if t.has_headers then 1 else 0) + t.data.length ∧
    (t.has_headers = true →
      ∃ w hdr, t.column_widths = .ok w ∧
        t.headers t.column_rtf_templates = .ok hdr ∧
        rows.head? = some (Table.begin_row ++ w ++ hdr ++ Table.end_row)) ∧
    ((∀ c ∈ t.columns, c.header.isSome → c.hcolor = none) →
      t.headers t.column_rtf_templates =
        .ok ("\x7b" ++ String.join (t.columns.map headerPiece) ++ "\x7d\n")) := by
  have hcontent : (∀ c ∈ t.columns, c.header.isSome → c.hcolor = none) →
      t.headers t.column_rtf_templates =
        .ok ("\x7b" ++ String.join (t.columns.map headerPiece) ++ "\x7d\n") := by
    intro hnc
    have hz : t.columns.zip t.column_rtf_templates
        = t.columns.map (fun c => (c, cellTemplate c)) := by
      simp only [Table.column_rtf_templates]
      exact zip_self_map t.columns cellTemplate
    have hpieces : mapE headerCell (t.columns.zip t.column_rtf_templates)
        = .ok ((t.columns.map (fun c => (c, cellTemplate c))).map
            (fun p => headerPiece p.1)) := by
      rw [hz]
      apply mapE_ok_of_forall
      intro p hp
      rcases List.mem_map.1 hp with ⟨c, hcmem, hpc⟩
      subst hpc
      cases hhd : c.header with
      | none => simp [headerCell, headerPiece, hhd]
      | some hs =>
        have hcol : c.hcolor = none := hnc c hcmem (by simp [hhd])
        simp [headerCell, headerPiece, hhd, hcol]
    simp only [Table.headers, Bind.bind, Except.bind, hpieces, List.map_map]
    have hcomp : ((fun p : Column × CellTmpl => headerPiece p.1) ∘ fun c => (c, cellTemplate c))
        = headerPiece := rfl
    rw [hcomp]
    simp [pure, Except.pure]
  have hmain : (t.has_headers = true ↔ ∃ c ∈ t.columns, c.header.isSome) ∧
      rows.length = (if t.has_headers then 1 else 0) + t.data.length ∧
      (t.has_headers = true →
        ∃ w hdr, t.column_widths = .ok w ∧
          t.headers t.column_rtf_templates = .ok hdr ∧
          rows.head? = some (Table.begin_row ++ w ++ hdr ++ Table.end_row)) := by
    have hiff : t.has_headers = true ↔ ∃ c ∈ t.columns, c.header.isSome := by
      simp [Table.has_headers, List.any_eq_true]
    simp only [Table.renderRows, Bind.bind, Except.bind] at h
    cases hw : t.column_widths with
    | error e => rw [hw] at h; cases h
    | ok w =>
      rw [hw] at h
      dsimp only [] at h
      cases hh : t.has_headers with
      | false =>
        rw [hh] at h
        dsimp only [pure, Except.pure] at h
        cases hd : mapE (t.dataRowRtf w) t.data with
        | error e => rw [hd] at h; cases h
        | ok drows =>
          rw [hd] at h
          simp only [pure, Except.pure, Except.ok.injEq, List.nil_append] at h
          subst h
          rw [hh] at hiff
          refine ⟨hiff, ?_, ?_⟩
          · simp [mapE_ok_length hd]
          · intro hcontra
            exact Bool.noConfusion hcontra
      | true =>
        rw [hh] at h
        dsimp only [] at h
        cases hhd : t.headers t.column_rtf_templates with
        | error e => rw [hhd] at h; cases h
        | ok hdr =>
          rw [hhd] at h
          dsimp only [pure, Except.pure] at h
          cases hd : mapE (t.dataRowRtf w) t.data with
          | error e => rw [hd] at h; cases h
          | ok drows =>
            rw [hd] at h
            simp only [pure, Except.pure, Except.ok.injEq] at h
            subst h
            rw [hh] at hiff
            refine ⟨hiff, ?_, ?_⟩
            · simp [mapE_ok_length hd, Nat.add_comm]
            · intro hx
              exact ⟨w, hdr, rfl, rfl, by simp⟩
  exact ⟨hmain.1, hmain.2.1, hmain.2.2, hcontent⟩

/-- The header row block `tableHeaderFont` renders: one `\f1`-decorated
cell for the header column and nothing for the no-header column. -/
def headerFontRow : String :=
  Table.begin_row ++ "\\cellx4680\\cellx9360\n" ++
    "\x7b\x7b\\pard\\ql\\intbl \\f1 H\\cell\x7d\n\x7d\n" ++ Table.end_row

/-- The single data row block `tableHeaderFont` renders. -/
def headerFontDataRow : String :=
  Table.begin_row ++ "\\cellx4680\\cellx9360\n" ++
    "\x7b\x7b\\pard\\ql\\intbl x\\cell\x7d\n\x7b\\pard\\ql\\intbl y\\cell\x7d\n\x7d\n" ++
    Table.end_row

/-- Witness for the amended C8 at the two-column table with a header
font and a no-header column: the render is the header row block
followed by the one data row block, and the header block carries the
`\f1` decoration while omitting the second column. -/
theorem c8_header_row_amended_witness :
    tableHeaderFont.renderRows = .ok [headerFontRow, headerFontDataRow] ∧
    tableHeaderFont.headers tableHeaderFont.column_rtf_templates =
      .ok ("\x7b" ++ String.join (tableHeaderFont.columns.map headerPiece) ++ "\x7d\n") ∧
    ((tableHeaderFont.has_headers = true ↔
        ∃ c ∈ tableHeaderFont.columns, c.header.isSome) ∧
      [headerFontRow, headerFontDataRow].length =
        (if tableHeaderFont.has_headers then 1 else 0) + tableHeaderFont.data.length ∧
      (tableHeaderFont.has_headers = true →
        ∃ w hdr, tableHeaderFont.column_widths = .ok w ∧
          tableHeaderFont.headers tableHeaderFont.column_rtf_templates = .ok hdr ∧
          [headerFontRow, headerFontDataRow].head? =
            some (Table.begin_row ++ w ++ hdr ++ Table.end_row)) ∧
      ((∀ c ∈ tableHeaderFont.columns, c.header.isSome → c.hcolor = none) →
        tableHeaderFont.headers tableHeaderFont.column_rtf_templates =
          .ok ("\x7b" ++ String.join (tableHeaderFont.columns.map headerPiece)
            ++ "\x7d\n"))) := by
  have hext : tableHeaderFont.columnExtents = .ok [4680, 9360] := by
    norm_num [tableHeaderFont, Table.columnExtents, Table.coercedWidths,
      Table.resolvedWidths, mapE, resolveWidth, widthFloat, pyIntOfWidth, ratTrunc,
      Bind.bind, Except.bind, pure, Except.pure, Except.map, docWidth,
      extentsFrom_nil, extentsFrom_cons, pct_ne_units, units_ne_pct]
  have hw : tableHeaderFont.column_widths = .ok "\\cellx4680\\cellx9360\n" := by
    have ht1 : ratTrunc ((4680:ℚ)) = (4680:ℤ) := by norm_num [ratTrunc]
    have ht2 : ratTrunc ((9360:ℚ)) = (9360:ℤ) := by norm_num [ratTrunc]
    simp only [Table.column_widths, hext, Except.map, List.map_cons, List.map_nil,
      ht1, ht2]
    exact congrArg Except.ok (by decide)
  have hrr : tableHeaderFont.renderRows = .ok [headerFontRow, headerFontDataRow] := by
    simp only [Table.renderRows, Bind.bind, Except.bind, hw]
    rfl
  have hthm := c8_header_row_amended tableHeaderFont [headerFontRow, headerFontDataRow] hrr
  refine ⟨hrr, ?_, hthm⟩
  exact hthm.2.2.2 (by
    intro c hc hcs
    simp only [tableHeaderFont, List.mem_cons, List.not_mem_nil, or_false] at hc
    rcases hc with rfl | rfl <;> rfl)

end PyRtf
